import Mathlib

/-!
Verification of the mdBook-blog preprocessor (`src/lib.rs`) against its
natural-language specification.

The embedding below translates the relevant parts of the Rust source into
Lean definitions:

* Filesystem paths are modelled as lists of components (`List String`);
  a file's base name is the last component.
* `chrono::NaiveDate` is modelled by `Date`, and the behaviour of
  `"...".parse::<NaiveDate>()` (format `%Y-%m-%d` with calendar and range
  validation) by `parseDate`.
* `extract_date_from_filename` (lib.rs:115-138) computes the index of the
  third hyphen by enumerating *characters*, but then slices the base name
  by *bytes* (`&basename[..index]`).  The embedding keeps this distinction:
  `takeBytes` returns `none` exactly when the byte index is out of bounds
  or falls on a non-character boundary of the UTF-8 encoding, which in the
  Rust source is a panic; the `ExtractResult.panicked` value records it.
* `collect_posts` (lib.rs:147-175) filters walk entries; a walk entry is
  `Option DirEntry`, `none` standing for a `walkdir` error item.  The
  source calls the four-parameter constructor `Post::new` with only three
  arguments (lib.rs:156 versus lib.rs:67), so the `name` field is never
  derived from the filename; the model fills the `name` slot positionally
  with `parent_name`, the third argument actually passed.
* The sort step (lib.rs:232-237) is a `match` whose arms are `Newest`
  (ascending by date), a second, unreachable `Newest` arm, `NameAZ` and
  `NameZA`; there is no `Oldest` arm, so the match is non-exhaustive and
  `sortPosts` returns `none` for `Oldest`.  `Vec::sort_by` is a stable
  sort; it is modelled by a stable insertion sort.
* The grafting loop of `BlogPreprocessor::run` (lib.rs:241-256) is
  `graftPosts`; file reads are modelled by an environment function
  `readFile : List String → Except String String`, and the
  `.expect("This cannot fail")` on the root-prefix rewrite is the
  `GraftError.panicked` outcome.
-/

namespace MdbookBlog

/-- Model of `chrono::naive::NaiveDate`: a pure calendar date. -/
structure Date where
  year : Int
  month : Nat
  day : Nat
deriving DecidableEq

/-- Proleptic Gregorian leap-year rule used by `chrono`. -/
def isLeapYear (y : Int) : Bool :=
  y % 4 == 0 && (y % 100 != 0 || y % 400 == 0)

/-- Number of days of month `m` of year `y` (0 for an invalid month). -/
def daysInMonth (y : Int) (m : Nat) : Nat :=
  match m with
  | 1 => 31
  | 2 => if isLeapYear y then 29 else 28
  | 3 => 31
  | 4 => 30
  | 5 => 31
  | 6 => 30
  | 7 => 31
  | 8 => 31
  | 9 => 30
  | 10 => 31
  | 11 => 30
  | 12 => 31
  | _ => 0

/-- Validity check performed by `chrono` when materialising a parsed date
(`NaiveDate::from_ymd_opt` plus the year range `MIN_YEAR..=MAX_YEAR`). -/
def validYmd (y : Int) (m d : Nat) : Bool :=
  decide (-262143 ≤ y) && decide (y ≤ 262142) &&
  decide (1 ≤ m) && decide (m ≤ 12) &&
  decide (1 ≤ d) && decide (d ≤ daysInMonth y m)

/-- Numeric value of an ASCII digit character. -/
def digitVal (c : Char) : Nat := c.toNat - 48

/-- Value of a string of ASCII digits, most significant first. -/
def digitsVal (cs : List Char) : Nat :=
  cs.foldl (fun a c => 10 * a + digitVal c) 0

/-- Optional leading sign of the year field, as accepted by `chrono`'s
numeric year parser. -/
def stripSign : List Char → Bool × List Char
  | [] => (false, [])
  | c :: t =>
    if c = '-' then (true, t)
    else if c = '+' then (false, t)
    else (false, c :: t)

/-- Scan up to `m` leading ASCII digits, returning the accumulated value,
the number of digits consumed, and the rest of the input
(`chrono`'s `scan::number`). -/
def scanDigits (cs : List Char) (maxd acc n : Nat) : Nat × Nat × List Char :=
  if maxd = 0 then (acc, n, cs)
  else
    match cs with
    | [] => (acc, n, [])
    | c :: cs2 =>
      if c.isDigit then scanDigits cs2 (maxd - 1) (10 * acc + digitVal c) (n + 1)
      else (acc, n, c :: cs2)

/-- A numeric field of at most `maxd` digits; fails when no digit is
present. -/
def scanNumber (cs : List Char) (maxd : Nat) : Option (Nat × List Char) :=
  match scanDigits cs maxd 0 0 with
  | (v, n, rest) => if n = 0 then none else some (v, rest)

/-- Consume one expected literal character. -/
def expectChar (c : Char) : List Char → Option (List Char)
  | [] => none
  | x :: xs => if x = c then some xs else none

/-- Model of `"...".parse::<chrono::NaiveDate>()`: an optionally signed
year, a hyphen, a one-or-two-digit month, a hyphen, a one-or-two-digit
day, nothing trailing, followed by calendar validation. -/
def parseDate (cs : List Char) : Option Date :=
  match stripSign cs with
  | (neg, cs1) =>
    match scanNumber cs1 cs1.length with
    | none => none
    | some (y, cs2) =>
      match expectChar '-' cs2 with
      | none => none
      | some cs3 =>
        match scanNumber cs3 2 with
        | none => none
        | some (m, cs4) =>
          match expectChar '-' cs4 with
          | none => none
          | some cs5 =>
            match scanNumber cs5 2 with
            | none => none
            | some (d, cs6) =>
              if cs6.isEmpty then
                let yi : Int := if neg then -(y : Int) else (y : Int)
                if validYmd yi m d then some (Date.mk yi m d) else none
              else none

/-- Number of bytes of the UTF-8 encoding of a character. -/
def utf8Len (c : Char) : Nat :=
  if c.toNat < 0x80 then 1
  else if c.toNat < 0x800 then 2
  else if c.toNat < 0x10000 then 3
  else 4

/-- The character index at which the hyphen count reaches three
(the loop of lib.rs:120-131); `none` when the loop never breaks, in which
case `index` keeps its initial value `0`. -/
def scanIdx : List Char → Nat → Nat → Option Nat
  | [], _, _ => none
  | c :: cs, i, count =>
    let count2 := if c = '-' then count + 1 else count
    if count2 = 3 then some i else scanIdx cs (i + 1) count2

/-- The characters making up the first `n` *bytes* of the UTF-8 encoding
of the string (`&basename[..n]`); `none` when `n` is past the end or not
a character boundary, which in Rust is a slicing panic. -/
def takeBytes (cs : List Char) (n : Nat) : Option (List Char) :=
  if n = 0 then some []
  else
    match cs with
    | [] => none
    | c :: cs2 =>
      if utf8Len c ≤ n then (takeBytes cs2 (n - utf8Len c)).map (c :: ·)
      else none

/-- The substring handed to the date parser: `&basename[..index]`
(lib.rs:133-135). -/
def dateCandidate (cs : List Char) : Option (List Char) :=
  takeBytes cs ((scanIdx cs 0 0).getD 0)

/-- Outcome of `extract_date_from_filename`: a parsed date, a date-parse
error propagated with `?`, or a byte-slicing panic. -/
inductive ExtractResult
  | ok (d : Date)
  | parseErr
  | panicked
deriving DecidableEq

/-- Core of `extract_date_from_filename` (lib.rs:115-138) on the character
list of the base name. -/
def extractL (cs : List Char) : ExtractResult :=
  match dateCandidate cs with
  | none => ExtractResult.panicked
  | some pre =>
    match parseDate pre with
    | some d => ExtractResult.ok d
    | none => ExtractResult.parseErr

/-- `extract_date_from_filename`, taking the file's base name. -/
def extract_date_from_filename (basename : String) : ExtractResult :=
  extractL basename.toList

/-- The extractor as it would behave if the slice were taken at the
*character* index computed by the loop: the all-ASCII reading of the
code, with no panic case. -/
def extractAsciiL (cs : List Char) : ExtractResult :=
  match parseDate (cs.take ((scanIdx cs 0 0).getD 0)) with
  | some d => ExtractResult.ok d
  | none => ExtractResult.parseErr

/-- Base name (final component) of a path; paths produced by a directory
walk are nonempty, so the `unwrap` of lib.rs:116 cannot fire. -/
def basenameOf (p : List String) : String := (p.getLast?).getD ("")

/-- Index of the last dot of a character list, if any. -/
def lastDotIdx : List Char → Option Nat
  | [] => none
  | c :: cs =>
    match lastDotIdx cs with
    | some i => some (i + 1)
    | none => if c = '.' then some 0 else none

/-- Model of `std::path::Path::extension` on a file name: the part after
the last dot, unless there is no dot, the only dot is leading, or the
name is `".."`. -/
def extOf (s : String) : Option String :=
  if s = ".." then none
  else
    match lastDotIdx s.toList with
    | none => none
    | some 0 => none
    | some (i + 1) => some (String.mk (s.toList.drop (i + 2)))

/-- A directory-walk entry that was read successfully. -/
structure DirEntry where
  path : List String
  isFile : Bool
deriving DecidableEq

/-- The `Post` struct (lib.rs:57-63). -/
structure Post where
  path : List String
  date : Date
  name : String
  parent_name : String
deriving DecidableEq

/-- `collect_posts` (lib.rs:147-175) over the list of walk entries
(`none` = a `walkdir` error item, logged and skipped).  The source builds
the post as `Post::new(path_buf, date, parent_name.clone())`, three
arguments for the four-parameter constructor of lib.rs:67; the model
fills the `name` parameter positionally with `parent_name`.  A
`panicked` extraction unwinds, aborting the whole collection (`none`). -/
def collect_posts : List (Option DirEntry) → String → Option (List Post)
  | [], _ => some []
  | none :: rest, parent => collect_posts rest parent
  | some de :: rest, parent =>
    if de.isFile = true ∧ extOf (basenameOf de.path) = some ("md") then
      match extract_date_from_filename (basenameOf de.path) with
      | ExtractResult.ok d =>
        (collect_posts rest parent).map
          (fun ps => Post.mk de.path d parent parent :: ps)
      | ExtractResult.parseErr => collect_posts rest parent
      | ExtractResult.panicked => none
    else collect_posts rest parent

/-- The `SortBy` configuration enumeration (lib.rs:35-40). -/
inductive SortBy
  | Newest
  | Oldest
  | NameAZ
  | NameZA
deriving DecidableEq

/-- `chrono::NaiveDate` ordering: chronological, i.e. lexicographic on
(year, month, day). -/
def dateLe (a b : Date) : Bool :=
  decide (a.year < b.year) ||
  (a.year == b.year &&
    (decide (a.month < b.month) ||
     (a.month == b.month && decide (a.day ≤ b.day))))

/-- Lexicographic order on character lists; on UTF-8 strings this agrees
with Rust's byte-wise `Ord` for `String`, since UTF-8 preserves
code-point order. -/
def charListLe : List Char → List Char → Bool
  | [], _ => true
  | _ :: _, [] => false
  | a :: xs, b :: ys => if a = b then charListLe xs ys else decide (a < b)

/-- Rust `String` ordering. -/
def nameLe (s t : String) : Bool := charListLe s.toList t.toList

/-- Insert into a sorted list, before the first element it is `le` to:
ties keep the inserted (earlier) element first. -/
def insertSorted (le : α → α → Bool) (a : α) : List α → List α
  | [] => [a]
  | b :: l => if le a b then a :: b :: l else b :: insertSorted le a l

/-- Stable insertion sort, modelling the stable `Vec::sort_by`. -/
def sort_by (le : α → α → Bool) : List α → List α
  | [] => []
  | a :: l => insertSorted le a (sort_by le l)

/-- The sort step of `BlogPreprocessor::run` (lib.rs:232-237), exactly as
the `match` is written: the reachable `Newest` arm compares
`a.date.cmp(&b.date)`, i.e. sorts *ascending* by date; `NameAZ` and
`NameZA` sort by name; the second `Newest` arm is unreachable and there
is no `Oldest` arm at all (rustc rejects the match as non-exhaustive),
modelled as `none`. -/
def sortPosts : SortBy → List Post → Option (List Post)
  | SortBy.Newest, posts => some (sort_by (fun a b => dateLe a.date b.date) posts)
  | SortBy.Oldest, _ => none
  | SortBy.NameAZ, posts => some (sort_by (fun a b => nameLe a.name b.name) posts)
  | SortBy.NameZA, posts => some (sort_by (fun a b => nameLe b.name a.name) posts)

/-- The fields of `mdbook::book::Chapter` that the preprocessor touches. -/
structure Chapter where
  name : String
  content : String
  path : Option (List String)
  sourcePath : Option (List String)
  parentNames : List String
deriving DecidableEq

/-- `mdbook::book::BookItem`. -/
inductive BookItem
  | chapter (c : Chapter)
  | separator
  | partTitle (t : String)
deriving DecidableEq

/-- Model of `Path::strip_prefix`, component-wise. -/
def stripDir : List String → List String → Option (List String)
  | [], p => some p
  | _ :: _, [] => none
  | r :: rs, q :: qs => if r = q then stripDir rs qs else none

/-- `Chapter::new("test", content, post.path, vec![post.parent_name])`
as in the `TryFrom<Post> for Chapter` impl (lib.rs:92-105): `mdbook`'s
constructor sets both `path` and `source_path` to the given path. -/
def chapterOfPost (content : String) (p : Post) : Chapter :=
  { name := "test"
    content := content
    path := some p.path
    sourcePath := some p.path
    parentNames := [p.parent_name] }

/-- Failure modes of the grafting loop: a propagated I/O error from the
file read, or the `.expect("This cannot fail")` on the prefix strip. -/
inductive GraftError
  | ioError (e : String)
  | panicked
deriving DecidableEq

/-- The grafting loop of `BlogPreprocessor::run` (lib.rs:241-256): for
each post, read its file (`TryFrom<Post> for Chapter`, failing the run on
an I/O error), overwrite `parent_names` with the configured chapter name,
rewrite `source_path` relative to the source root (panicking if the strip
fails), mirror it into `path`, and append the chapter to the book. -/
def graftPosts (readFile : List String → Except String String)
    (srcDir : List String) (chapterName : String) :
    List Post → List BookItem → Except GraftError (List BookItem)
  | [], book => Except.ok book
  | p :: ps, book =>
    match readFile p.path with
    | Except.error e => Except.error (GraftError.ioError e)
    | Except.ok content =>
      let ch0 := chapterOfPost content p
      let ch1 := { ch0 with parentNames := [chapterName] }
      match stripDir srcDir p.path with
      | none => Except.error GraftError.panicked
      | some rel =>
        graftPosts readFile srcDir chapterName ps
          (book ++ [BookItem.chapter { ch1 with sourcePath := some rel, path := some rel }])

/-! ## Helper lemmas -/

theorem stripDir_append : ∀ (r t : List String), stripDir r (r ++ t) = some t
  | [], _ => rfl
  | x :: xs, t => by
    simp only [List.cons_append, stripDir, if_pos rfl]
    exact stripDir_append xs t

theorem scanIdx_none_of_few :
    ∀ (cs : List Char) (i k : Nat), cs.count '-' + k < 3 → scanIdx cs i k = none := by
  intro cs
  induction cs with
  | nil => intro i k _; rfl
  | cons c cs ih =>
    intro i k h
    by_cases hc : c = '-'
    · have hcount : (c :: cs).count '-' = cs.count '-' + 1 := by
        simp [List.count_cons, hc]
      simp only [scanIdx, if_pos hc]
      have hlt : k + 1 + cs.count '-' < 3 := by omega
      have hne : ¬ (k + 1 = 3) := by omega
      simp only [if_neg hne]
      exact ih (i + 1) (k + 1) (by omega)
    · have hcount : (c :: cs).count '-' = cs.count '-' := by
        simp [List.count_cons, hc]
      simp only [scanIdx, if_neg hc]
      have hne : ¬ (k = 3) := by omega
      simp only [if_neg hne]
      exact ih (i + 1) k (by omega)

theorem scanIdx_lt :
    ∀ (cs : List Char) (i k j : Nat), scanIdx cs i k = some j → j < i + cs.length := by
  intro cs
  induction cs with
  | nil => intro i k j h; exact absurd h (by simp [scanIdx])
  | cons c cs ih =>
    intro i k j h
    simp only [scanIdx] at h
    by_cases h3 : (if c = '-' then k + 1 else k) = 3
    · rw [if_pos h3] at h
      have : j = i := by exact Option.some.inj h |>.symm
      simp only [this, List.length_cons]
      omega
    · rw [if_neg h3] at h
      have := ih (i + 1) _ j h
      simp [List.length_cons]
      omega

theorem parseDate_nil : parseDate [] = none := rfl

theorem takeBytes_zero (cs : List Char) : takeBytes cs 0 = some [] := by
  rw [takeBytes.eq_def]
  rfl

theorem utf8Len_of_lt {c : Char} (h : c.toNat < 128) : utf8Len c = 1 := by
  simp [utf8Len, h]

theorem takeBytes_ascii :
    ∀ (cs : List Char) (n : Nat), (∀ c ∈ cs, c.toNat < 128) → n ≤ cs.length →
      takeBytes cs n = some (cs.take n) := by
  intro cs
  induction cs with
  | nil =>
    intro n _ hn
    have : n = 0 := by simpa using hn
    subst this
    rfl
  | cons c cs ih =>
    intro n hascii hn
    cases n with
    | zero => rfl
    | succ m =>
      have hc : c.toNat < 128 := hascii c (List.mem_cons_self c cs)
      have h1 : utf8Len c = 1 := utf8Len_of_lt hc
      rw [takeBytes.eq_def]
      rw [if_neg (Nat.succ_ne_zero m)]
      simp only [h1]
      rw [if_pos (by omega)]
      have hm : m + 1 - 1 = m := by omega
      rw [hm]
      have hrest : takeBytes cs m = some (cs.take m) :=
        ih m (fun x hx => hascii x (List.mem_cons_of_mem c hx)) (by simpa using hn)
      rw [hrest]
      rfl

/-! ## Claim theorems -/

/-- Claim C1.  The claim states that under `Newest` every adjacent output
pair (a, b) satisfies a.date >= b.date (most recent first).  The code
contradicts it: the reachable `Newest` arm of the match at lib.rs:232-237
compares `a.date.cmp(&b.date)` and therefore sorts *ascending* by date
(oldest first); the descending comparator sits in the second, unreachable
duplicate `Newest` arm, and the `Oldest` variant has no arm at all.  On
two posts dated 2024-03-05 and 2024-01-01 the code's `Newest` output is
[2024-01-01, 2024-03-05], whose adjacent pair violates a.date >= b.date. -/
theorem c1_newest_sorts_ascending :
    sortPosts SortBy.Newest
        [Post.mk ["src", "posts", "2024-03-05-world.md"] (Date.mk 2024 3 5) ("world") ("Posts"),
         Post.mk ["src", "posts", "2024-01-01-hello.md"] (Date.mk 2024 1 1) ("hello") ("Posts")]
      = some
        [Post.mk ["src", "posts", "2024-01-01-hello.md"] (Date.mk 2024 1 1) ("hello") ("Posts"),
         Post.mk ["src", "posts", "2024-03-05-world.md"] (Date.mk 2024 3 5) ("world") ("Posts")]
    ∧ dateLe (Date.mk 2024 3 5) (Date.mk 2024 1 1) = false :=
  ⟨by decide, by decide⟩

/-- Claim C2.  The claim states that an accepted file emits a Post whose
`name` is the filename remainder after the date prefix.  The code never
derives that remainder: `collect_posts` calls the four-parameter
`Post::new` with three arguments (lib.rs:156 versus lib.rs:67), so the
`name` slot is filled (positionally) by `parent_name`.  For the accepted
file `2024-01-01-hello.md` with chapter name `Posts`, the emitted post
carries name `"Posts"`, not the remainder `"hello"`. -/
theorem c2_post_name_not_remainder :
    collect_posts [some (DirEntry.mk ["src", "posts", "2024-01-01-hello.md"] true)] ("Posts")
      = some [Post.mk ["src", "posts", "2024-01-01-hello.md"] (Date.mk 2024 1 1) ("Posts") ("Posts")]
    ∧ ("Posts" : String) ≠ ("hello") :=
  ⟨by decide, by decide⟩

/-- Claim C8.  The claim states the sorter is a stable permutation under
all four strategies.  The match at lib.rs:232-237 has no `Oldest` arm
(its second arm repeats `Newest`), so under `Oldest` the code produces no
sorted output at all — the match is non-exhaustive and rustc rejects it;
the embedding renders the missing arm as `none` for every input list. -/
theorem c8_oldest_arm_missing : ∀ l : List Post, sortPosts SortBy.Oldest l = none :=
  fun _ => rfl

/-- Claim C6.  For a post whose path lies under the source root, the
root-relative rewrite of its source path succeeds and re-joining it with
the root restores the original absolute path (lib.rs:244-252). -/
theorem c6_rebase_round_trip (srcDir : List String) (p : Post)
    (h : ∃ rel, p.path = srcDir ++ rel) :
    ∃ rel, stripDir srcDir p.path = some rel ∧ srcDir ++ rel = p.path := by
  obtain ⟨rel, hrel⟩ := h
  refine ⟨rel, ?_, ?_⟩
  · rw [hrel]
    exact stripDir_append srcDir rel
  · rw [hrel]

/-- Witness for C6 at a concrete post under the root `["src"]`. -/
theorem c6_rebase_round_trip_witness :
    ∃ rel, stripDir ["src"] ["src", "posts", "2024-01-01-hello.md"] = some rel ∧
      ["src"] ++ rel = ["src", "posts", "2024-01-01-hello.md"] :=
  c6_rebase_round_trip ["src"]
    (Post.mk ["src", "posts", "2024-01-01-hello.md"] (Date.mk 2024 1 1) ("hello") ("Posts"))
    ⟨["posts", "2024-01-01-hello.md"], rfl⟩

/-- Claim C9.  A successful grafting run only appends: the output book is
the input book followed by some new items, so every pre-existing item is
still present, unmodified and in its original relative order
(lib.rs:241-256, `book.push_item`). -/
theorem c9_graft_only_appends
    (rf : List String → Except String String) (srcDir : List String) (cn : String) :
    ∀ (posts : List Post) (book book2 : List BookItem),
      graftPosts rf srcDir cn posts book = Except.ok book2 →
      ∃ ns, book2 = book ++ ns := by
  intro posts
  induction posts with
  | nil =>
    intro book book2 h
    simp only [graftPosts] at h
    exact ⟨[], by simp [Except.ok.injEq] at h; simp [h]⟩
  | cons p ps ih =>
    intro book book2 h
    simp only [graftPosts] at h
    cases hrf : rf p.path with
    | error e =>
      rw [hrf] at h
      exact absurd h (by simp)
    | ok content =>
      rw [hrf] at h
      cases hs : stripDir srcDir p.path with
      | none =>
        rw [hs] at h
        exact absurd h (by simp)
      | some rel =>
        rw [hs] at h
        obtain ⟨ns, hns⟩ := ih _ _ h
        exact ⟨_, by rw [hns, List.append_assoc]⟩

/-- Witness for C9: grafting no posts returns the book unchanged, an
append of nothing. -/
theorem c9_graft_only_appends_witness :
    ∃ ns, ([BookItem.separator] : List BookItem) = [BookItem.separator] ++ ns :=
  c9_graft_only_appends (fun _ => Except.ok ("")) ["src"] ("Posts") [] [BookItem.separator]
    [BookItem.separator] rfl

/-- Claim C4 (amended).  For a basename with fewer than three hyphens the
loop never breaks, `index` keeps its initial value `0`, and the extractor
parses the *empty* prefix `&basename[..0]` — not the full basename — so
it always fails with a date-parse error. -/
theorem c4_few_hyphens_parse_error (s : String) (h : s.toList.count '-' < 3) :
    extract_date_from_filename s = ExtractResult.parseErr ∧
      dateCandidate s.toList = some [] := by
  have hidx : scanIdx s.toList 0 0 = none := scanIdx_none_of_few s.toList 0 0 (by omega)
  constructor
  · simp only [extract_date_from_filename, extractL, dateCandidate, hidx, Option.getD_none,
      takeBytes_zero]
    rfl
  · simp only [dateCandidate, hidx, Option.getD_none, takeBytes_zero]

/-- Witness for C4 at the concrete basename `a.md` (one hyphen short of
three: it has none). -/
theorem c4_few_hyphens_parse_error_witness :
    ("a.md").toList.count '-' < 3 ∧
      (extract_date_from_filename ("a.md") = ExtractResult.parseErr ∧
        dateCandidate (("a.md").toList) = some []) :=
  ⟨by decide, c4_few_hyphens_parse_error ("a.md") (by decide)⟩

/-- Counterexample to claim C4 as stated: the claim says the extractor
"degenerates to parsing the full basename"; on `nodate.md` (fewer than
three hyphens) the candidate substring handed to the date parser is the
empty prefix, not the full basename. -/
theorem c4_not_full_basename_cex :
    extract_date_from_filename ("nodate.md") = ExtractResult.parseErr ∧
      dateCandidate (("nodate.md").toList) ≠ some (("nodate.md").toList) :=
  ⟨by decide, by decide⟩

/-- Claim C10.  The extractor is not total over arbitrary UTF-8
basenames: on `ééé---x.md` the third hyphen sits at character index 5,
but byte 5 falls inside the third two-byte `é`, so the byte slice
`&basename[..5]` is not on a character boundary and the Rust code
panics; on all-ASCII basenames character and byte indices coincide and
the extractor agrees with its character-indexed reading. -/
theorem c10_byte_slice_partial :
    extract_date_from_filename ("ééé---x.md") = ExtractResult.panicked
    ∧ ∀ cs : List Char, (∀ c ∈ cs, c.toNat < 128) → extractL cs = extractAsciiL cs := by
  constructor
  · decide
  · intro cs h
    unfold extractL extractAsciiL dateCandidate
    cases hidx : scanIdx cs 0 0 with
    | none =>
      simp only [Option.getD_none]
      rw [takeBytes_ascii cs 0 h (Nat.zero_le _)]
    | some j =>
      have hj : j < 0 + cs.length := scanIdx_lt cs 0 0 j hidx
      simp only [Option.getD_some]
      rw [takeBytes_ascii cs j h (by omega)]

/-- Witness for C10's all-ASCII agreement at a concrete basename. -/
theorem c10_byte_slice_partial_witness :
    extractL (("2024-01-01-a.md").toList) = extractAsciiL (("2024-01-01-a.md").toList) :=
  c10_byte_slice_partial.2 (("2024-01-01-a.md").toList) (by decide)

/-! ## Digit-character facts and the valid-shape extraction lemmas -/

theorem not_hyphen_of_digit {c : Char} (h : c.isDigit = true) : ¬ (c = '-') := by
  intro he
  subst he
  exact absurd h (by decide)

theorem not_plus_of_digit {c : Char} (h : c.isDigit = true) : ¬ (c = '+') := by
  intro he
  subst he
  exact absurd h (by decide)

theorem toNat_lt_128_of_digit {c : Char} (h : c.isDigit = true) : c.toNat < 128 := by
  have hb : 48 ≤ c.toNat ∧ c.toNat ≤ 57 := by simpa [Char.isDigit] using h
  omega

theorem hyphen_not_digit : ('-').isDigit = false := by decide

theorem scanIdx_date_shape (c0 c1 c2 c3 m0 m1 d0 d1 : Char) (X : List Char)
    (h0 : c0.isDigit = true) (h1 : c1.isDigit = true) (h2 : c2.isDigit = true)
    (h3 : c3.isDigit = true) (h4 : m0.isDigit = true) (h5 : m1.isDigit = true)
    (h6 : d0.isDigit = true) (h7 : d1.isDigit = true) :
    scanIdx ([c0, c1, c2, c3, '-', m0, m1, '-', d0, d1, '-'] ++ X) 0 0 = some 10 := by
  have n0 := not_hyphen_of_digit h0
  have n1 := not_hyphen_of_digit h1
  have n2 := not_hyphen_of_digit h2
  have n3 := not_hyphen_of_digit h3
  have n4 := not_hyphen_of_digit h4
  have n5 := not_hyphen_of_digit h5
  have n6 := not_hyphen_of_digit h6
  have n7 := not_hyphen_of_digit h7
  simp [scanIdx, n0, n1, n2, n3, n4, n5, n6, n7]

theorem takeBytes_date_shape (c0 c1 c2 c3 m0 m1 d0 d1 : Char) (X : List Char)
    (h0 : c0.isDigit = true) (h1 : c1.isDigit = true) (h2 : c2.isDigit = true)
    (h3 : c3.isDigit = true) (h4 : m0.isDigit = true) (h5 : m1.isDigit = true)
    (h6 : d0.isDigit = true) (h7 : d1.isDigit = true) :
    takeBytes ([c0, c1, c2, c3, '-', m0, m1, '-', d0, d1, '-'] ++ X) 10 =
      some [c0, c1, c2, c3, '-', m0, m1, '-', d0, d1] := by
  have u0 := utf8Len_of_lt (toNat_lt_128_of_digit h0)
  have u1 := utf8Len_of_lt (toNat_lt_128_of_digit h1)
  have u2 := utf8Len_of_lt (toNat_lt_128_of_digit h2)
  have u3 := utf8Len_of_lt (toNat_lt_128_of_digit h3)
  have u4 := utf8Len_of_lt (toNat_lt_128_of_digit h4)
  have u5 := utf8Len_of_lt (toNat_lt_128_of_digit h5)
  have u6 := utf8Len_of_lt (toNat_lt_128_of_digit h6)
  have u7 := utf8Len_of_lt (toNat_lt_128_of_digit h7)
  have uh : utf8Len '-' = 1 := by decide
  simp [takeBytes, u0, u1, u2, u3, u4, u5, u6, u7, uh, takeBytes_zero]

theorem parseDate_date_shape (c0 c1 c2 c3 m0 m1 d0 d1 : Char)
    (h0 : c0.isDigit = true) (h1 : c1.isDigit = true) (h2 : c2.isDigit = true)
    (h3 : c3.isDigit = true) (h4 : m0.isDigit = true) (h5 : m1.isDigit = true)
    (h6 : d0.isDigit = true) (h7 : d1.isDigit = true)
    (hv : validYmd ((digitsVal [c0, c1, c2, c3] : Nat) : Int) (digitsVal [m0, m1])
        (digitsVal [d0, d1]) = true) :
    parseDate [c0, c1, c2, c3, '-', m0, m1, '-', d0, d1] =
      some (Date.mk ((digitsVal [c0, c1, c2, c3] : Nat) : Int) (digitsVal [m0, m1])
        (digitsVal [d0, d1])) := by
  have n0 := not_hyphen_of_digit h0
  have p0 := not_plus_of_digit h0
  have hnd := hyphen_not_digit
  simp only [digitsVal, List.foldl] at hv ⊢
  simp [parseDate, stripSign, n0, p0, scanNumber, scanDigits, expectChar,
    h0, h1, h2, h3, h4, h5, h6, h7, hnd]
  push_cast at hv
  simpa using hv

/-- Claim C3.  For every basename of the shape `YYYY-MM-DD-X.md` (four
digit characters, hyphen, two digits, hyphen, two digits, hyphen, an
arbitrary remainder `X`, and the `.md` suffix) whose digit fields form a
valid calendar date, the extractor returns exactly that date, regardless
of hyphens (or any other characters) inside `X`. -/
theorem c3_extract_valid_shape (c0 c1 c2 c3 m0 m1 d0 d1 : Char) (X : List Char)
    (h0 : c0.isDigit = true) (h1 : c1.isDigit = true) (h2 : c2.isDigit = true)
    (h3 : c3.isDigit = true) (h4 : m0.isDigit = true) (h5 : m1.isDigit = true)
    (h6 : d0.isDigit = true) (h7 : d1.isDigit = true)
    (hv : validYmd ((digitsVal [c0, c1, c2, c3] : Nat) : Int) (digitsVal [m0, m1])
        (digitsVal [d0, d1]) = true) :
    extractL ([c0, c1, c2, c3, '-', m0, m1, '-', d0, d1, '-'] ++ X ++ ['.', 'm', 'd']) =
      ExtractResult.ok (Date.mk ((digitsVal [c0, c1, c2, c3] : Nat) : Int)
        (digitsVal [m0, m1]) (digitsVal [d0, d1])) := by
  rw [List.append_assoc]
  unfold extractL dateCandidate
  rw [scanIdx_date_shape c0 c1 c2 c3 m0 m1 d0 d1 (X ++ ['.', 'm', 'd'])
    h0 h1 h2 h3 h4 h5 h6 h7]
  simp only [Option.getD_some]
  simp only [takeBytes_date_shape c0 c1 c2 c3 m0 m1 d0 d1 (X ++ ['.', 'm', 'd'])
      h0 h1 h2 h3 h4 h5 h6 h7,
    parseDate_date_shape c0 c1 c2 c3 m0 m1 d0 d1 h0 h1 h2 h3 h4 h5 h6 h7 hv]

/-- Witness for C3 at the concrete basename `2024-01-01-hello.md`. -/
theorem c3_extract_valid_shape_witness :
    extractL (['2', '0', '2', '4', '-', '0', '1', '-', '0', '1', '-'] ++
        ("hello").toList ++ ['.', 'm', 'd']) =
      ExtractResult.ok (Date.mk 2024 1 1) := by
  have h := c3_extract_valid_shape '2' '0' '2' '4' '0' '1' '0' '1' (("hello").toList)
    (by decide) (by decide) (by decide) (by decide) (by decide) (by decide) (by decide)
    (by decide) (by decide)
  exact h

/-! ## Collector and grafting lemmas -/

/-- A walk entry that the collector accepts: a readable file entry with
extension `md` whose basename yields a date. -/
def goodEntry (e : Option DirEntry) : Prop :=
  ∃ de d, e = some de ∧ de.isFile = true ∧ extOf (basenameOf de.path) = some ("md") ∧
    extract_date_from_filename (basenameOf de.path) = ExtractResult.ok d

/-- A malformed walk entry in the sense of the error-handling taxonomy:
a walk error, or a candidate `.md` file whose basename fails date
parsing.  (A basename whose byte slice panics is a different failure
mode, treated in claim C10.) -/
def malformedEntry (e : Option DirEntry) : Prop :=
  e = none ∨ ∃ de, e = some de ∧ de.isFile = true ∧
    extOf (basenameOf de.path) = some ("md") ∧
    extract_date_from_filename (basenameOf de.path) = ExtractResult.parseErr

theorem collect_posts_all_good :
    ∀ (B : List (Option DirEntry)) (parent : String), (∀ b ∈ B, goodEntry b) →
      ∃ l, collect_posts B parent = some l ∧ l.length = B.length := by
  intro B
  induction B with
  | nil => intro parent _; exact ⟨[], rfl, rfl⟩
  | cons e B ih =>
    intro parent hgood
    obtain ⟨de, d, he, hf, hext, hok⟩ := hgood e (List.mem_cons_self e B)
    subst he
    obtain ⟨l, hl, hlen⟩ := ih parent (fun b hb => hgood b (List.mem_cons_of_mem _ hb))
    refine ⟨Post.mk de.path d parent parent :: l, ?_, ?_⟩
    · simp only [collect_posts]
      rw [if_pos ⟨hf, hext⟩, hok, hl]
      rfl
    · simp [hlen]

theorem collect_posts_sources :
    ∀ (entries : List (Option DirEntry)) (parent : String) (l : List Post),
      collect_posts entries parent = some l →
      ∀ p ∈ l, ∃ de : DirEntry, some de ∈ entries ∧ de.isFile = true ∧
        extOf (basenameOf de.path) = some ("md") ∧ p.path = de.path := by
  intro entries
  induction entries with
  | nil =>
    intro parent l h p hp
    simp only [collect_posts] at h
    obtain rfl : ([] : List Post) = l := Option.some.inj h
    exact absurd hp (by simp)
  | cons e rest ih =>
    intro parent l h p hp
    cases e with
    | none =>
      simp only [collect_posts] at h
      obtain ⟨de, hmem, hrest⟩ := ih parent l h p hp
      exact ⟨de, List.mem_cons_of_mem _ hmem, hrest⟩
    | some de =>
      by_cases hc : de.isFile = true ∧ extOf (basenameOf de.path) = some ("md")
      · simp only [collect_posts] at h
        rw [if_pos hc] at h
        cases hex : extract_date_from_filename (basenameOf de.path) with
        | ok d =>
          rw [hex] at h
          cases hrest : collect_posts rest parent with
          | none =>
            rw [hrest] at h
            exact absurd h (by simp)
          | some l2 =>
            rw [hrest] at h
            obtain rfl : Post.mk de.path d parent parent :: l2 = l := by simpa using h
            rcases List.mem_cons.mp hp with rfl | hp2
            · exact ⟨de, List.mem_cons_self _ _, hc.1, hc.2, rfl⟩
            · obtain ⟨de2, hmem, hrest2⟩ := ih parent l2 hrest p hp2
              exact ⟨de2, List.mem_cons_of_mem _ hmem, hrest2⟩
        | parseErr =>
          rw [hex] at h
          obtain ⟨de2, hmem, hrest2⟩ := ih parent l h p hp
          exact ⟨de2, List.mem_cons_of_mem _ hmem, hrest2⟩
        | panicked =>
          rw [hex] at h
          exact absurd h (by simp)
      · simp only [collect_posts] at h
        rw [if_neg hc] at h
        obtain ⟨de2, hmem, hrest2⟩ := ih parent l h p hp
        exact ⟨de2, List.mem_cons_of_mem _ hmem, hrest2⟩

theorem collect_posts_skip_one :
    ∀ (A : List (Option DirEntry)) (e : Option DirEntry) (B : List (Option DirEntry))
      (parent : String),
      (∀ a ∈ A, goodEntry a) → (∀ b ∈ B, goodEntry b) → malformedEntry e →
      ∃ l, collect_posts (A ++ e :: B) parent = some l ∧
        l.length = A.length + B.length := by
  intro A
  induction A with
  | nil =>
    intro e B parent _ hB hbad
    obtain ⟨l, hl, hlen⟩ := collect_posts_all_good B parent hB
    rcases hbad with rfl | ⟨de, rfl, hf, hext, herr⟩
    · refine ⟨l, ?_, by simp [hlen]⟩
      simp only [List.nil_append, collect_posts]
      exact hl
    · refine ⟨l, ?_, by simp [hlen]⟩
      simp only [List.nil_append, collect_posts]
      rw [if_pos ⟨hf, hext⟩, herr]
      exact hl
  | cons a A ih =>
    intro e B parent hA hB hbad
    obtain ⟨de, d, he, hf, hext, hok⟩ := hA a (List.mem_cons_self a A)
    subst he
    obtain ⟨l, hl, hlen⟩ := ih e B parent (fun x hx => hA x (List.mem_cons_of_mem _ hx)) hB hbad
    refine ⟨Post.mk de.path d parent parent :: l, ?_, ?_⟩
    · simp only [List.cons_append, collect_posts, List.append_eq]
      rw [if_pos ⟨hf, hext⟩, hok, hl]
      rfl
    · simp only [List.length_cons, List.length_append, hlen]
      omega

/-- Claim C5.  The collector's output never contains a directory entry or
a non-`.md` file: every emitted post stems from a file entry with
extension `md`.  And a single malformed entry — a walk error, or a
candidate file whose basename fails date parsing — is discarded without
aborting: with the other entries well-formed the collector returns one
post per remaining candidate. -/
theorem c5_collector_filters :
    (∀ (entries : List (Option DirEntry)) (parent : String) (l : List Post),
      collect_posts entries parent = some l →
      ∀ p ∈ l, ∃ de : DirEntry, some de ∈ entries ∧ de.isFile = true ∧
        extOf (basenameOf de.path) = some ("md") ∧ p.path = de.path)
    ∧ (∀ (A : List (Option DirEntry)) (e : Option DirEntry) (B : List (Option DirEntry))
        (parent : String),
        (∀ a ∈ A, goodEntry a) → (∀ b ∈ B, goodEntry b) → malformedEntry e →
        ∃ l, collect_posts (A ++ e :: B) parent = some l ∧
          l.length = A.length + B.length) :=
  ⟨collect_posts_sources, collect_posts_skip_one⟩

/-- Witness for C5: of two candidate files, one with an unparsable name,
exactly one post survives and the collection does not abort. -/
theorem c5_collector_filters_witness :
    ∃ l, collect_posts
        [some (DirEntry.mk ["src", "posts", "2024-02-29-leap.md"] true),
         some (DirEntry.mk ["src", "posts", "badname.md"] true)] ("Posts") = some l ∧
      l.length = 1 := by
  have h := c5_collector_filters.2
    [some (DirEntry.mk ["src", "posts", "2024-02-29-leap.md"] true)]
    (some (DirEntry.mk ["src", "posts", "badname.md"] true)) [] ("Posts")
    (by
      intro a ha
      simp only [List.mem_singleton] at ha
      subst ha
      exact ⟨DirEntry.mk ["src", "posts", "2024-02-29-leap.md"] true, Date.mk 2024 2 29,
        rfl, rfl, by decide, by decide⟩)
    (by intro b hb; exact absurd hb (by simp))
    (Or.inr ⟨DirEntry.mk ["src", "posts", "badname.md"] true, rfl, rfl, by decide, by decide⟩)
  simpa using h

/-- Claim C7.  During grafting, a failed file read fails the entire run:
if some accepted post's file cannot be read, the run's result is that
I/O error and no book is returned; and with every read succeeding (and
every post under the source root, as the walk guarantees) the run
completes with a book — the read is the one point where a single bad
post aborts the run. -/
theorem c7_read_error_fails_run (rf : List String → Except String String)
    (srcDir : List String) (cn : String) :
    ∀ (posts : List Post) (book : List BookItem),
      (∀ p ∈ posts, ∃ rel, p.path = srcDir ++ rel) →
      (((∃ p ∈ posts, ∃ e, rf p.path = Except.error e) →
        ∃ e, graftPosts rf srcDir cn posts book = Except.error (GraftError.ioError e) ∧
          ∃ p ∈ posts, rf p.path = Except.error e)
      ∧ ((∀ p ∈ posts, ∃ c, rf p.path = Except.ok c) →
        ∃ book2, graftPosts rf srcDir cn posts book = Except.ok book2)) := by
  intro posts
  induction posts with
  | nil =>
    intro book _
    constructor
    · rintro ⟨p, hp, _⟩
      exact absurd hp (by simp)
    · intro _
      exact ⟨book, rfl⟩
  | cons p ps ih =>
    intro book hpre
    have hpre2 : ∀ q ∈ ps, ∃ rel, q.path = srcDir ++ rel :=
      fun q hq => hpre q (List.mem_cons_of_mem p hq)
    obtain ⟨rel, hrel⟩ := hpre p (List.mem_cons_self p ps)
    have hstrip : stripDir srcDir p.path = some rel := by
      rw [hrel]
      exact stripDir_append srcDir rel
    constructor
    · rintro ⟨q, hq, e, he⟩
      cases hrf : rf p.path with
      | error e0 =>
        refine ⟨e0, ?_, p, List.mem_cons_self p ps, hrf⟩
        simp only [graftPosts, hrf]
      | ok content =>
        have hq2 : q ∈ ps := by
          rcases List.mem_cons.mp hq with rfl | h2
          · rw [hrf] at he
            exact absurd he (by simp)
          · exact h2
        obtain ⟨e1, hgr, q1, hq1, he1⟩ :=
          (ih (book ++ [BookItem.chapter
            { chapterOfPost content p with
                parentNames := [cn], sourcePath := some rel, path := some rel }]) hpre2).1
            ⟨q, hq2, e, he⟩
        refine ⟨e1, ?_, q1, List.mem_cons_of_mem p hq1, he1⟩
        simp only [graftPosts, hrf, hstrip]
        exact hgr
    · intro hall
      cases hrf : rf p.path with
      | error e0 =>
        obtain ⟨c, hc⟩ := hall p (List.mem_cons_self p ps)
        rw [hrf] at hc
        exact absurd hc (by simp)
      | ok content =>
        obtain ⟨book2, hb⟩ :=
          (ih (book ++ [BookItem.chapter
            { chapterOfPost content p with
                parentNames := [cn], sourcePath := some rel, path := some rel }]) hpre2).2
            (fun q hq => hall q (List.mem_cons_of_mem p hq))
        refine ⟨book2, ?_⟩
        simp only [graftPosts, hrf, hstrip]
        exact hb

/-- Witness for C7: one post whose read fails with a concrete I/O error
fails the whole run with that error. -/
theorem c7_read_error_fails_run_witness :
    ∃ e, graftPosts (fun _ => Except.error ("disk gone")) ["src"] ("Posts")
        [Post.mk ["src", "2024-01-01-a.md"] (Date.mk 2024 1 1) ("a") ("Posts")] [] =
          Except.error (GraftError.ioError e) ∧
      ∃ p ∈ [Post.mk ["src", "2024-01-01-a.md"] (Date.mk 2024 1 1) ("a") ("Posts")],
        (fun (_ : List String) => (Except.error ("disk gone") : Except String String)) p.path =
          Except.error e := by
  have h := (c7_read_error_fails_run (fun _ => Except.error ("disk gone")) ["src"] ("Posts")
    [Post.mk ["src", "2024-01-01-a.md"] (Date.mk 2024 1 1) ("a") ("Posts")] []
    (by
      intro p hp
      simp only [List.mem_singleton] at hp
      subst hp
      exact ⟨["2024-01-01-a.md"], rfl⟩)).1
    ⟨Post.mk ["src", "2024-01-01-a.md"] (Date.mk 2024 1 1) ("a") ("Posts"), by simp,
      ("disk gone"), rfl⟩
  exact h

end MdbookBlog
